import Mathlib

/-!
Shallow embedding of the graph-rewriting pass `ToONNX` from
`torch/csrc/jit/passes/onnx.cpp`, together with theorems checking the
specification's claims about it.

Modelling conventions:
* Nodes are identified by natural-number ids (`NodeId`).  In the source IR a
  value is itself a `Node*`: a single-output node stands for its own output and
  a multi-output node exposes its outputs as separate (select) nodes, so a
  node-to-node mapping suffices, exactly as in the source's
  `std::unordered_map<Node*, Node*> env`.
* The original graph is read-only throughout the pass, so it is passed as a
  plain parameter `orig : Graph`; the new graph, the node mapping `env` and the
  new buffer map live in the mutable pass state `PassSt`.
* C++ exceptions are modelled by the result type `PResult`, whose error case
  carries the state at the throw point, so that "what had been mutated when the
  pass failed" is expressible.
* The external symbolic lowering routines (python `_run_symbolic_function`,
  `_run_symbolic_method`, and the C++ `HasSymbolic::symbolic`) are modelled as
  an injected `Oracle` record of functions that receive the new graph and may
  extend it, returning a possibly malformed raw result (`RawOutput`).
-/

namespace OnnxPass

abbrev NodeId := Nat

/-- The slice of the IR type system the pass inspects: it only ever asks
whether a type's kind is `HandleType`, and otherwise moves types around
opaquely. -/
inductive JType where
  | handleType
  | tensorType (payload : Nat)
  | multiType
  deriving DecidableEq, Repr

/-- Operator tag of a node.  `select`, `cppOp` and `pythonOp` mirror the
`IR_IF(node, Select) / IR_ELSEIFM(CppOp) / IR_ELSEIFM(PythonOp)` dispatch in
the source; every other operator is a `generic` symbol.  The structural data
the dispatch consults (presence of a symbolic capability, the python calling
convention string, the number of scalar args) is carried on the tag. -/
inductive NodeKind where
  | select (offset : Nat)
  | cppOp (opName : String) (hasSymbolicFn : Bool)
  | pythonOp (opName : String) (hasSymbolicAttr : Bool) (cconv : List Char) (numScalarArgs : Nat)
  | generic (sym : Nat)
  deriving DecidableEq, Repr

/-- The reserved `kUndefined` operator symbol. -/
def kUndefined : Nat := 0

def symbolToString (k : Nat) : String := toString k

/-- One recorded use of a node: the consuming node and the input slot. -/
structure NUse where
  user : NodeId
  offset : Nat
  deriving DecidableEq, Repr

/-- A graph node.  `outputs` lists the node ids standing for this node's
outputs (the node itself for a single-output node, its select nodes when
`multi` is set); `uses` is the recorded use list maintained by the graph
library. -/
structure Node where
  kind : NodeKind
  inputs : List NodeId
  nType : Option JType
  stage : Nat
  srcLoc : Option Nat
  multi : Bool
  outputs : List NodeId
  uses : List NUse
  deriving DecidableEq, Repr

def defaultNode : Node :=
  { kind := .generic 0, inputs := [], nType := none, stage := 0, srcLoc := none,
    multi := false, outputs := [], uses := [] }

/-- A graph: a node store, the append-ordered node list, designated inputs and
outputs, a fresh-id counter, the current stage used for newly created nodes,
and the graph's own stage tag.  `outputs` entries are optional because
`registerOutput` may be handed a null node. -/
structure Graph where
  store : List (NodeId × Node)
  order : List NodeId
  inputs : List NodeId
  outputs : List (Option NodeId)
  nextId : NodeId
  curStage : Nat
  stage : Nat
  deriving DecidableEq, Repr

def emptyGraph : Graph :=
  { store := [], order := [], inputs := [], outputs := [], nextId := 0,
    curStage := 0, stage := 0 }

/-- Association-list lookup (the front-most entry wins, so insertion at the
front is overwrite, as for `unordered_map` assignment). -/
def alook {α : Type} (k : NodeId) : List (NodeId × α) → Option α
  | [] => none
  | p :: rest => if k = p.1 then some p.2 else alook k rest

def getNode (g : Graph) (i : NodeId) : Node := (alook i g.store).getD defaultNode

def isHandle : Option JType → Bool
  | some .handleType => true
  | _ => false

/-- Source `hasHandleOutput`: a multi-output node whose last output
has `HandleType`. -/
def hasHandleOutput (g : Graph) (n : Node) : Bool :=
  n.multi &&
    (match n.outputs.getLast? with
     | some oid => isHandle (getNode g oid).nType
     | none => false)

/-- Source `hasUsedHandle`: the handle output exists and has at least
one recorded use. -/
def hasUsedHandle (g : Graph) (n : Node) : Bool :=
  hasHandleOutput g n &&
    (match n.outputs.getLast? with
     | some oid => !(getNode g oid).uses.isEmpty
     | none => false)

/-- The tracing state handle the pass receives and finally swaps the new graph
into. -/
structure TracingState where
  isExpired : Bool
  graph : Graph
  bufferMap : List (Nat × NodeId)
  deriving DecidableEq, Repr

/-- The failure modes of the pass (each corresponds to one `throw` or
`JIT_ASSERT*` site in the source). -/
inductive PassError where
  | staleTraceState
  | danglingReference
  | usedElidedOutput
  | arityMismatch (op : String) (expected : Nat) (actual : Nat)
  | droppedUsedOutput (op : String) (index : Nat)
  | badSymbolicResult (op : String)
  | badCallingConvention
  | tooManyScalarArgs
  | tooManyInputs
  | selectUnmapped
  | handleHadUses
  | outputNotInEnv
  | nullGraphOutput
  deriving DecidableEq, Repr

/-- The mutable state of one pass invocation: the new graph under
construction, the node mapping `env` (an entry `(n, none)` is the explicit
"elided" marker, a missing entry means "not yet visited"), and the new buffer
map being accumulated. -/
structure PassSt where
  g : Graph
  env : List (NodeId × Option NodeId)
  bufMap : List (Nat × NodeId)
  deriving DecidableEq, Repr

/-- Result of a stateful step: C++-exception style, but carrying the state at
the throw point so that claims about "what was mutated before the failure" can
be stated. -/
inductive PResult (α : Type) where
  | ok (a : α) (s : PassSt)
  | err (e : PassError) (s : PassSt)
  deriving DecidableEq, Repr

def PassM (α : Type) := PassSt → PResult α

instance : Monad PassM where
  pure a := fun s => .ok a s
  bind x f := fun s =>
    match x s with
    | .ok a s' => f a s'
    | .err e s' => .err e s'

def throwP {α : Type} (e : PassError) : PassM α := fun s => .err e s

def getStP : PassM PassSt := fun s => .ok s s

def modifyP (f : PassSt → PassSt) : PassM Unit := fun s => .ok () (f s)

/-- Source `envFn`: resolve an original node through the node
mapping; `JIT_ASSERTM(it != env.end(), "Dangling node reference")` and
`JIT_ASSERTM(it->second, "Unused node was subsequently used")`. -/
def envFn (n : NodeId) : PassM NodeId := fun s =>
  match alook n s.env with
  | none => .err .danglingReference s
  | some none => .err .usedElidedOutput s
  | some (some m) => .ok m s

/-- Resolve a list of inputs through `envFn` (the source's
`fmap(node->inputs(), envFn)` / per-input loop). -/
def mapEnv : List NodeId → PassM (List NodeId)
  | [] => pure []
  | i :: is => do
    let m ← envFn i
    let ms ← mapEnv is
    pure (m :: ms)

/-- Pointwise store update at id `i`. -/
def updStore (i : NodeId) (f : Node → Node) (l : List (NodeId × Node)) :
    List (NodeId × Node) :=
  l.map (fun p => if p.1 = i then (p.1, f p.2) else p)

/-- Update the stored node with id `i` in place (the source mutates nodes
through pointers; ids not present in the store are untouched). -/
def updNode (i : NodeId) (f : Node → Node) : PassM Unit :=
  modifyP fun s =>
    { s with g := { s.g with store := updStore i f s.g.store } }

/-- Allocate a freshly created node in the new graph's store
(`Graph::createClone` allocation). -/
def allocNode (n : Node) : PassM NodeId := fun s =>
  .ok s.g.nextId
    { s with g := { s.g with
        store := (s.g.nextId, n) :: s.g.store, nextId := s.g.nextId + 1 } }

/-- Source `ctx.graph->createClone(src, envFn)`: copy kind, type, source location and
the multi-output tag, remap the inputs through the node mapping, and stamp the
new node with the graph's current stage. -/
def createClone (src : Node) : PassM NodeId := do
  let ins ← mapEnv src.inputs
  let s ← getStP
  allocNode
    { kind := src.kind, inputs := ins, nType := src.nType,
      stage := s.g.curStage, srcLoc := src.srcLoc, multi := src.multi,
      outputs := [], uses := [] }

def appendNodeM (i : NodeId) : PassM Unit :=
  modifyP fun s => { s with g := { s.g with order := s.g.order ++ [i] } }

def addInputM (i : NodeId) : PassM Unit :=
  modifyP fun s => { s with g := { s.g with inputs := s.g.inputs ++ [i] } }

def registerOutputM (v : Option NodeId) : PassM Unit :=
  modifyP fun s => { s with g := { s.g with outputs := s.g.outputs ++ [v] } }

/-- Assignment `env[k] = v` (insertion at the front is lookup-shadowing, i.e. overwrite
semantics). -/
def envSet (k : NodeId) (v : Option NodeId) : PassM Unit :=
  modifyP fun s => { s with env := (k, v) :: s.env }

def bufSet (k : Nat) (v : NodeId) : PassM Unit :=
  modifyP fun s => { s with bufMap := (k, v) :: s.bufMap }

/-- Clone the users of a multi-output node (its output-selecting consumers):
the `for (auto s : node->uses())` loop inside the source's `cloneNode`. -/
def cloneUsers (orig : Graph) : List NUse → PassM Unit
  | [] => pure ()
  | u :: us => do
    let c ← createClone (getNode orig u.user)
    appendNodeM c
    envSet u.user (some c)
    cloneUsers orig us

/-- Source `cloneNode`: structurally clone the node, record the
mapping, append it, and for a multi-output node clone its consumers as well. -/
def cloneNode (orig : Graph) (nid : NodeId) : PassM Unit := do
  let node := getNode orig nid
  let c ← createClone node
  envSet nid (some c)
  appendNodeM c
  if node.multi then cloneUsers orig node.uses else pure ()

/-- The non-handle output count of a node
(`old_outputs.size() - (has_handle ? 1 : 0)`). -/
def nonHandleCount (orig : Graph) (n : Node) : Nat :=
  n.outputs.length - (if hasHandleOutput orig n then 1 else 0)

/-- The body of the reconciliation loop in `setOutputs`, for output position
`i` with original output `old` and candidate entry `entry`.  A real candidate
gets the original type only when it has none of its own, gets the original
node's source location, and is recorded; a null candidate is recorded as
elided and is fatal when the original output still has uses. -/
def setOutBody (orig : Graph) (opName : String) (srcLoc : Option Nat)
    (i : Nat) (old : NodeId) (entry : Option NodeId) : PassM Unit :=
  match entry with
  | some outId =>
    getStP >>= fun s =>
    (if (getNode s.g outId).nType = none then
      updNode outId (fun n => { n with nType := (getNode orig old).nType })
    else
      pure ()) >>= fun _ =>
    updNode outId (fun n => { n with srcLoc := srcLoc }) >>= fun _ =>
    envSet old (some outId)
  | none =>
    envSet old none >>= fun _ =>
    if (getNode orig old).uses.isEmpty then
      pure ()
    else
      throwP (.droppedUsedOutput opName i)

def setOutLoop (orig : Graph) (opName : String) (srcLoc : Option Nat) :
    Nat → List NodeId → List (Option NodeId) → PassM Unit
  | _, [], _ => pure ()
  | _, _ :: _, [] => pure ()
  | i, old :: olds, entry :: entries => do
    setOutBody orig opName srcLoc i old entry
    setOutLoop orig opName srcLoc (i + 1) olds entries

/-- Source `setOutputs`: check the arity of the symbolic result
against the non-handle output count, reconcile each position, and elide the
(necessarily unused) handle output if there is one. -/
def setOutputs (orig : Graph) (opName : String) (nid : NodeId)
    (outs : List (Option NodeId)) : PassM Unit :=
  let node := getNode orig nid
  let olds := node.outputs
  let num := nonHandleCount orig node
  if outs.length ≠ num then
    throwP (.arityMismatch opName num outs.length)
  else do
    setOutLoop orig opName node.srcLoc 0 (olds.take num) outs
    if hasHandleOutput orig node then
      match olds.getLast? with
      | none => pure ()
      | some h =>
        if (getNode orig h).uses.isEmpty then
          envSet h none
        else
          throwP .handleHadUses
    else
      pure ()

/-- The raw value a python symbolic call returns, as seen after the pybind
casts: `None`, a single node, a list of nodes where entries may be `None`, or
something that fails to cast. -/
inductive RawOutput where
  | pyNone
  | single (n : NodeId)
  | list (ns : List (Option NodeId))
  | malformed
  deriving DecidableEq, Repr

/-- An argument marshalled for a per-instance python symbolic call. -/
inductive PyArg where
  | graphArg
  | scalar (idx : Nat)
  | node (n : NodeId)
  deriving DecidableEq, Repr

/-- The externally supplied lowering routines.  Each receives the new graph
(which it may extend arbitrarily) and produces a raw result. -/
structure Oracle where
  runSymbolicFunction : Graph → NodeId → Nat → List NodeId → Graph × RawOutput
  runSymbolicMethod : Graph → String → NodeId → List PyArg → Graph × RawOutput
  cppSymbolic : Graph → String → NodeId → List NodeId → Graph × List (Option NodeId)

def callOracleFn (o : Oracle) (nid : NodeId) (k : Nat) (ins : List NodeId) :
    PassM RawOutput := fun s =>
  let r := o.runSymbolicFunction s.g nid k ins
  .ok r.2 { s with g := r.1 }

def callOracleMethod (o : Oracle) (opName : String) (nid : NodeId)
    (args : List PyArg) : PassM RawOutput := fun s =>
  let r := o.runSymbolicMethod s.g opName nid args
  .ok r.2 { s with g := r.1 }

def callOracleCpp (o : Oracle) (opName : String) (nid : NodeId)
    (ins : List NodeId) : PassM (List (Option NodeId)) := fun s =>
  let r := o.cppSymbolic s.g opName nid ins
  .ok r.2 { s with g := r.1 }

/-- Source `processSymbolicOutput`: `None` overall defers to structural cloning, a
single node becomes a one-element list, a list is reconciled as is, and a
value that fails the cast is a fatal error. -/
def processSymbolicOutput (orig : Graph) (opName : String) (nid : NodeId)
    (raw : RawOutput) : PassM Unit :=
  match raw with
  | .pyNone => cloneNode orig nid
  | .single m => setOutputs orig opName nid [some m]
  | .list ns => setOutputs orig opName nid ns
  | .malformed => throwP (.badSymbolicResult opName)

/-- Source `callPySymbolicFunction`: resolve the inputs, call the operator-kind-keyed
oracle, reconcile. -/
def callPySymbolicFunction (o : Oracle) (orig : Graph) (nid : NodeId)
    (node : Node) (k : Nat) : PassM Unit := do
  let ins ← mapEnv node.inputs
  let raw ← callOracleFn o nid k ins
  processSymbolicOutput orig (symbolToString k) nid raw

/-- Marshal the python symbolic arguments following the calling convention
string; a tag other than the scalar and tensor tags is fatal. -/
def marshalArgs (numScalars : Nat) :
    List Char → List NodeId → Nat → PassM (List PyArg)
  | [], _, _ => pure []
  | c :: cs, ins, si =>
    if c = 's' then
      if si < numScalars then do
        let rest ← marshalArgs numScalars cs ins (si + 1)
        pure (.scalar si :: rest)
      else
        throwP .tooManyScalarArgs
    else if c = 't' then
      match ins with
      | [] => throwP .tooManyInputs
      | i :: ins2 => do
        let m ← envFn i
        let rest ← marshalArgs numScalars cs ins2 si
        pure (.node m :: rest)
    else
      throwP .badCallingConvention

/-- Source `callPySymbolicMethod`: bail to structural cloning when the operator
instance has no `symbolic` attribute, otherwise marshal the graph handle and
the convention-typed arguments and call the per-instance routine. -/
def callPySymbolicMethod (o : Oracle) (orig : Graph) (nid : NodeId)
    (node : Node) (opName : String) (hasAttr : Bool) (cconv : List Char)
    (numScalars : Nat) : PassM Unit :=
  if hasAttr then do
    let args ← marshalArgs numScalars cconv node.inputs 0
    let raw ← callOracleMethod o opName nid (PyArg.graphArg :: args)
    processSymbolicOutput orig opName nid raw
  else
    cloneNode orig nid

/-- The `IR_IF` dispatch over the node's kind. -/
def dispatchNode (o : Oracle) (orig : Graph) (nid : NodeId) (node : Node) :
    PassM Unit :=
  match node.kind with
  | .select _ => fun s =>
    match alook nid s.env with
    | none => .err .selectUnmapped s
    | some _ => .ok () s
  | .cppOp opName hasSym =>
    if hasSym then do
      let ins ← mapEnv node.inputs
      let outs ← callOracleCpp o opName nid ins
      setOutputs orig opName nid outs
    else
      cloneNode orig nid
  | .pythonOp opName hasAttr cconv numScalars =>
    callPySymbolicMethod o orig nid node opName hasAttr cconv numScalars
  | .generic k =>
    if k = kUndefined then
      cloneNode orig nid
    else
      callPySymbolicFunction o orig nid node k

/-- Source `setStageTemporary`: run an action with the new graph's current stage set
to `stg`, restoring the saved stage afterwards (also on failure, as the C++
guard restores during unwinding). -/
def withStage (stg : Nat) (act : PassM Unit) : PassM Unit := fun s =>
  let saved := s.g.curStage
  match act { s with g := { s.g with curStage := stg } } with
  | .ok a s2 => .ok a { s2 with g := { s2.g with curStage := saved } }
  | .err e s2 => .err e { s2 with g := { s2.g with curStage := saved } }

/-- Process one original node: the used-handle escape hatch first (outside the
stage guard, as in the source), then the stage-guarded dispatch. -/
def processNode (o : Oracle) (orig : Graph) (nid : NodeId) : PassM Unit :=
  let node := getNode orig nid
  if node.multi && hasUsedHandle orig node then
    cloneNode orig nid
  else
    withStage node.stage (dispatchNode o orig nid node)

/-- The structural-clone-only counterpart of `processNode`: same control
shape, but the dispatch is replaced by cloning.  Mentioning no oracle, it is
what nodes exempt from lowering reduce to. -/
def cloneOnly (orig : Graph) (nid : NodeId) : PassM Unit :=
  let node := getNode orig nid
  if node.multi && hasUsedHandle orig node then
    cloneNode orig nid
  else
    withStage node.stage (cloneNode orig nid)

def processAll (o : Oracle) (orig : Graph) : List NodeId → PassM Unit
  | [] => pure ()
  | nid :: rest => do
    processNode o orig nid
    processAll o orig rest

/-- Clone the graph inputs (preserving their stages) and seed the node
mapping. -/
def cloneInputs (orig : Graph) : List NodeId → PassM Unit
  | [] => pure ()
  | i :: is => do
    let src := getNode orig i
    let c ← createClone src
    updNode c (fun n => { n with stage := src.stage })
    addInputM c
    envSet i (some c)
    cloneInputs orig is

/-- Translate the auxiliary buffer map through the node mapping
(`new_buffer_map[kv.first] = envFn(kv.second)`). -/
def translateBuffers : List (Nat × NodeId) → PassM Unit
  | [] => pure ()
  | (k, v) :: rest => do
    let m ← envFn v
    bufSet k m
    translateBuffers rest

/-- The raw map lookup used for final outputs (`env.at(output)`): it faults
only when the entry is missing entirely; the elided marker passes through as a
null node. -/
def resolveOutput (out : NodeId) : PassM (Option NodeId) := fun s =>
  match alook out s.env with
  | none => .err .outputNotInEnv s
  | some v => .ok v s

def registerOutputs : List (Option NodeId) → PassM Unit
  | [] => pure ()
  | none :: _ => throwP .nullGraphOutput
  | some out :: rest => do
    let v ← resolveOutput out
    registerOutputM v
    registerOutputs rest

def setFinalStage (stg : Nat) : PassM Unit :=
  modifyP fun s => { s with g := { s.g with stage := stg } }

def initSt : PassSt := { g := emptyGraph, env := [], bufMap := [] }

/-- The ordered body of the pass: clone inputs, translate the buffer map,
visit all nodes, resolve outputs, copy the graph stage. -/
def passBody (o : Oracle) (s : TracingState) : PassM Unit := do
  cloneInputs s.graph s.graph.inputs
  translateBuffers s.bufferMap
  processAll o s.graph s.graph.order
  registerOutputs s.graph.outputs
  setFinalStage s.graph.stage

/-- Source `ToONNX`: check the expiry precondition, run the pass body over a fresh
new graph, and only on success swap the rewritten graph and translated buffer
map into the trace state — the final two statements of the source.  On any
failure the trace state is returned as received. -/
def ToONNX (o : Oracle) (s : TracingState) : TracingState × Option PassError :=
  if s.isExpired then
    (s, some .staleTraceState)
  else
    match passBody o s initSt with
    | .ok _ st => ({ s with graph := st.g, bufferMap := st.bufMap }, none)
    | .err e _ => (s, some e)

/-- The node produced by `createClone` from `src`, with remapped inputs `ins`,
at current stage `stg`. -/
def cloneOf (src : Node) (ins : List NodeId) (stg : Nat) : Node :=
  { kind := src.kind, inputs := ins, nType := src.nType, stage := stg,
    srcLoc := src.srcLoc, multi := src.multi, outputs := [], uses := [] }

/-- The pass state after one iteration of the input-cloning loop on an input
with no incoming edges. -/
def cloneInputStep (orig : Graph) (i : NodeId) (st : PassSt) : PassSt :=
  { st with
    g := { st.g with
      store := updStore st.g.nextId
        (fun n => { n with stage := (getNode orig i).stage })
        ((st.g.nextId,
          { kind := (getNode orig i).kind, inputs := [],
            nType := (getNode orig i).nType, stage := st.g.curStage,
            srcLoc := (getNode orig i).srcLoc, multi := (getNode orig i).multi,
            outputs := [], uses := [] }) :: st.g.store),
      inputs := st.g.inputs ++ [st.g.nextId],
      nextId := st.g.nextId + 1 },
    env := (i, some st.g.nextId) :: st.env }

/-- The pass state after cloning one output-selecting consumer `u` of a
multi-output node whose clone is `c`. -/
def cloneUserStep (orig : Graph) (u : NUse) (c : NodeId) (st : PassSt) : PassSt :=
  { st with
    g := { st.g with
      store := (st.g.nextId, cloneOf (getNode orig u.user) [c] st.g.curStage) :: st.g.store,
      order := st.g.order ++ [st.g.nextId],
      nextId := st.g.nextId + 1 },
    env := (u.user, some st.g.nextId) :: st.env }

/-- The pass state right after a multi-output node has been cloned, mapped
and appended, before its consumers are cloned. -/
def cloneNodeStep (orig : Graph) (nid : NodeId) (ms : List NodeId)
    (st : PassSt) : PassSt :=
  { st with
    g := { st.g with
      store := (st.g.nextId, cloneOf (getNode orig nid) ms st.g.curStage) :: st.g.store,
      order := st.g.order ++ [st.g.nextId],
      nextId := st.g.nextId + 1 },
    env := (nid, some st.g.nextId) :: st.env }

/-! ### Concrete fixtures used by the witness theorems -/

/-- An oracle that always defers (returns the python `None`), with an empty
C++ symbolic result. -/
def oracleNone : Oracle :=
  { runSymbolicFunction := fun g _ _ _ => (g, .pyNone),
    runSymbolicMethod := fun g _ _ _ => (g, .pyNone),
    cppSymbolic := fun g _ _ _ => (g, []) }

def nd0 : Node :=
  { kind := .generic 1, inputs := [], nType := some (.tensorType 7), stage := 0,
    srcLoc := none, multi := false, outputs := [0], uses := [⟨1, 0⟩] }

def nd1 : Node :=
  { kind := .generic 5, inputs := [0], nType := some .multiType, stage := 0,
    srcLoc := none, multi := true, outputs := [2, 3], uses := [⟨2, 0⟩, ⟨3, 0⟩] }

def nd2 : Node :=
  { kind := .select 0, inputs := [1], nType := some (.tensorType 1), stage := 0,
    srcLoc := none, multi := false, outputs := [2], uses := [] }

def nd3 : Node :=
  { kind := .select 1, inputs := [1], nType := some .handleType, stage := 0,
    srcLoc := none, multi := false, outputs := [3], uses := [⟨4, 0⟩] }

def nd4 : Node :=
  { kind := .generic 9, inputs := [3], nType := none, stage := 0,
    srcLoc := none, multi := false, outputs := [4], uses := [] }

def nd5 : Node :=
  { kind := .select 0, inputs := [7], nType := some (.tensorType 4), stage := 0,
    srcLoc := none, multi := false, outputs := [5], uses := [⟨4, 0⟩] }

def nd6 : Node :=
  { kind := .select 1, inputs := [7], nType := some (.tensorType 2), stage := 0,
    srcLoc := none, multi := false, outputs := [6], uses := [] }

def nd7 : Node :=
  { kind := .generic 8, inputs := [0], nType := some .multiType, stage := 0,
    srcLoc := none, multi := true, outputs := [5, 6], uses := [⟨5, 0⟩, ⟨6, 0⟩] }

def nd8 : Node :=
  { kind := .generic kUndefined, inputs := [], nType := none, stage := 0,
    srcLoc := none, multi := false, outputs := [8], uses := [] }

/-- A small original graph exercising inputs, a multi-output node with a used
handle and its selects, a plain two-output node, and an undefined-kind node. -/
def gW : Graph :=
  { store := [(0, nd0), (1, nd1), (2, nd2), (3, nd3), (4, nd4), (5, nd5),
      (6, nd6), (7, nd7), (8, nd8)],
    order := [1, 2, 3, 4, 7, 8], inputs := [0], outputs := [some 4],
    nextId := 9, curStage := 0, stage := 0 }

def stW : PassSt := { g := emptyGraph, env := [(0, some 0)], bufMap := [] }

def ndT : Node :=
  { kind := .generic 3, inputs := [], nType := some (.tensorType 3), stage := 0,
    srcLoc := none, multi := false, outputs := [], uses := [] }

def stT : PassSt :=
  { g := { emptyGraph with store := [(10, ndT)], nextId := 11 },
    env := [], bufMap := [] }

def stEnv : PassSt :=
  { g := emptyGraph, env := [(1, some 5), (2, none)], bufMap := [] }

def sExp : TracingState := { isExpired := true, graph := gW, bufferMap := [] }

def sBad : TracingState :=
  { isExpired := false, graph := emptyGraph, bufferMap := [(7, 3)] }

def sBad2 : TracingState :=
  { isExpired := false, graph := gW, bufferMap := [(7, 4)] }

/-! ### Unfolding lemmas for the pass monad -/

theorem bindP_def {α β : Type} (x : PassM α) (f : α → PassM β) (s : PassSt) :
    (x >>= f) s =
      match x s with
      | .ok a s2 => f a s2
      | .err e s2 => .err e s2 := rfl

theorem pureP_def {α : Type} (a : α) (s : PassSt) : (pure a : PassM α) s = .ok a s := rfl

theorem getStP_def (s : PassSt) : getStP s = .ok s s := rfl

theorem modifyP_def (f : PassSt → PassSt) (s : PassSt) : modifyP f s = .ok () (f s) := rfl

theorem throwP_def {α : Type} (e : PassError) (s : PassSt) :
    (throwP e : PassM α) s = .err e s := rfl

/-! ### Claim theorems: environment lookup (C6) -/

/-- C6: resolving an original node through the node mapping while wiring
inputs fails with the dangling-reference fault when the node has no entry,
fails with the used-elided-output fault when the entry is the elided marker,
and otherwise returns the mapped new-graph node. -/
theorem envFn_resolve_spec (st : PassSt) (n : NodeId) :
    (alook n st.env = none → envFn n st = .err .danglingReference st) ∧
    (alook n st.env = some none → envFn n st = .err .usedElidedOutput st) ∧
    (∀ m, alook n st.env = some (some m) → envFn n st = .ok m st) := by
  refine ⟨fun h => ?_, fun h => ?_, fun m h => ?_⟩ <;> unfold envFn <;> rw [h]

/-! ### Claim theorems: stale trace state (C8) -/

/-- C8: when the trace state is expired, the pass fails with the
stale-trace-state error and returns the trace state exactly as received,
producing no new graph content. -/
theorem ToONNX_expired_fails (o : Oracle) (s : TracingState)
    (h : s.isExpired = true) :
    ToONNX o s = (s, some .staleTraceState) := by
  unfold ToONNX
  rw [h]
  simp

/-! ### Claim theorems: elided graph outputs pass final resolution (C9) -/

/-- C9: an original graph output mapped to the elided marker is installed as a
null output of the new graph by the final output-resolution step, which uses
the raw lookup `resolveOutput` and succeeds — while the `envFn` resolve
operation used for node inputs faults with the used-elided-output error on the
very same entry. -/
theorem elided_output_installed_null (st : PassSt) (out : NodeId)
    (h : alook out st.env = some none) :
    registerOutputs [some out] st =
      .ok () { st with g := { st.g with outputs := st.g.outputs ++ [none] } } ∧
    envFn out st = .err .usedElidedOutput st := by
  constructor
  · show (resolveOutput out >>= fun v => registerOutputM v >>= fun _ =>
      registerOutputs []) st = _
    rw [bindP_def]
    unfold resolveOutput
    rw [h]
    rfl
  · unfold envFn
    rw [h]

/-! ### Claim theorems: arity mismatch (C2) -/

/-- C2: a lowering result list whose length differs from the node's non-handle
output count makes the pass fail with the arity-mismatch error carrying the
operator name, the expected count and the actual count, with the pass state —
in particular the node mapping — exactly as before the call (no partial
mapping). -/
theorem setOutputs_arity_mismatch (orig : Graph) (opName : String)
    (nid : NodeId) (outs : List (Option NodeId)) (st : PassSt)
    (h : outs.length ≠ nonHandleCount orig (getNode orig nid)) :
    setOutputs orig opName nid outs st =
      .err (.arityMismatch opName (nonHandleCount orig (getNode orig nid))
        outs.length) st := by
  unfold setOutputs
  simp [h, throwP]

/-! ### Claim theorems: the swap is last and the only effect (C1) -/

/-- C1: replacing the trace state's graph and buffer map is the last action of
the pass and its only externally observable effect: whenever the pass fails —
with any of its errors, at any point — the returned trace state is exactly the
one received, and when it succeeds the returned trace state differs from the
input only in its graph and buffer map, which are exactly the pass body's
results. -/
theorem ToONNX_swap_is_last (o : Oracle) (s : TracingState) :
    (∀ s2 e, ToONNX o s = (s2, some e) → s2 = s) ∧
    (∀ s2, ToONNX o s = (s2, none) →
      s2.isExpired = s.isExpired ∧
      ∃ st, passBody o s initSt = .ok () st ∧
        s2.graph = st.g ∧ s2.bufferMap = st.bufMap) := by
  constructor
  · intro s2 e h
    unfold ToONNX at h
    by_cases hexp : s.isExpired = true
    · rw [hexp] at h
      simp at h
      exact h.1.symm
    · simp only [Bool.not_eq_true] at hexp
      rw [hexp] at h
      simp only [Bool.false_eq_true, if_false] at h
      cases hpb : passBody o s initSt with
      | ok a st => rw [hpb] at h; simp at h
      | err e2 st =>
        rw [hpb] at h
        simp at h
        exact h.1.symm
  · intro s2 h
    unfold ToONNX at h
    by_cases hexp : s.isExpired = true
    · rw [hexp] at h
      simp at h
    · simp only [Bool.not_eq_true] at hexp
      rw [hexp] at h
      simp only [Bool.false_eq_true, if_false] at h
      cases hpb : passBody o s initSt with
      | ok a st =>
        rw [hpb] at h
        have h2 : ({ isExpired := false, graph := st.g, bufferMap := st.bufMap } :
            TracingState) = s2 := congrArg Prod.fst h
        cases a
        refine ⟨?_, st, ?_, ?_, ?_⟩
        · rw [← h2, hexp]
        · rfl
        · rw [← h2]
        · rw [← h2]
      | err e2 st =>
        rw [hpb] at h
        simp at h

/-! ### Claim theorems: undefined nodes are always cloned (C7) -/

/-- C7: a node whose kind is the reserved undefined-value operator is
processed exactly as the structural-clone-only path — which mentions no
lowering oracle — for every oracle, so the operator-kind-keyed lowering is
never consulted for it, whatever rewrite rules the oracle carries. -/
theorem undefined_always_cloned (o : Oracle) (orig : Graph) (nid : NodeId)
    (st : PassSt) (h : (getNode orig nid).kind = .generic kUndefined) :
    processNode o orig nid st = cloneOnly orig nid st := by
  have hd : dispatchNode o orig nid (getNode orig nid) = cloneNode orig nid := by
    unfold dispatchNode
    rw [h]
    simp
  unfold processNode cloneOnly
  rw [hd]

/-! ### Store-update lemmas -/

theorem alook_nil {α : Type} (k : NodeId) : alook k ([] : List (NodeId × α)) = none := rfl

theorem alook_cons {α : Type} (k : NodeId) (p : NodeId × α) (rest : List (NodeId × α)) :
    alook k (p :: rest) = if k = p.1 then some p.2 else alook k rest := rfl

theorem alook_cons_self {α : Type} (k : NodeId) (v : α) (rest : List (NodeId × α)) :
    alook k ((k, v) :: rest) = some v := by
  simp [alook_cons]

theorem alook_cons_ne {α : Type} (k k2 : NodeId) (v : α) (rest : List (NodeId × α))
    (h : ¬k = k2) : alook k ((k2, v) :: rest) = alook k rest := by
  simp [alook_cons, h]

theorem updStore_cons (i : NodeId) (f : Node → Node) (p : NodeId × Node)
    (t : List (NodeId × Node)) :
    updStore i f (p :: t) =
      (if p.1 = i then (p.1, f p.2) else p) :: updStore i f t := rfl

theorem alook_updStore (l : List (NodeId × Node)) (i j : NodeId) (f : Node → Node) :
    alook j (updStore i f l) =
      if j = i then (alook j l).map f else alook j l := by
  induction l with
  | nil => by_cases h : j = i <;> simp [h, alook, updStore]
  | cons p t ih =>
    rw [updStore_cons]
    by_cases hpi : p.1 = i
    · rw [if_pos hpi]
      by_cases hjp : j = p.1
      · subst hjp
        simp [alook_cons, hpi]
      · have hji : ¬j = i := by rw [← hpi]; exact hjp
        simp [alook_cons, hjp, hji, ih]
    · rw [if_neg hpi]
      by_cases hjp : j = p.1
      · subst hjp
        simp [alook_cons, hpi]
      · simp [alook_cons, hjp, ih]

/-! ### Claim theorems: fill, never overwrite (C4) -/

/-- C4: when a real (non-null) candidate node is reconciled against an
original output, the reconciliation succeeds and the candidate's type
afterwards is the original output's declared type exactly when the candidate
had no type of its own at that moment, and is its own unchanged type
otherwise. -/
theorem setOutputs_type_fill_never_overwrite (orig : Graph) (opName : String)
    (srcLoc : Option Nat) (i : Nat) (old m : NodeId) (st : PassSt) (nd : Node)
    (hm : alook m st.g.store = some nd) :
    ∃ st2, setOutBody orig opName srcLoc i old (some m) st = .ok () st2 ∧
      (getNode st2.g m).nType =
        (if nd.nType = none then (getNode orig old).nType else nd.nType) := by
  have hget : getNode st.g m = nd := by unfold getNode; rw [hm]; rfl
  unfold setOutBody
  simp only [bindP_def, getStP_def, hget]
  by_cases ht : nd.nType = none
  · rw [if_pos ht, if_pos ht]
    refine ⟨_, rfl, ?_⟩
    unfold getNode
    dsimp only
    rw [alook_updStore, if_pos rfl, alook_updStore, if_pos rfl, hm]
    simp
  · rw [if_neg ht, if_neg ht]
    refine ⟨_, rfl, ?_⟩
    unfold getNode
    dsimp only
    rw [alook_updStore, if_pos rfl, hm]
    simp [ht]

/-! ### Reconciliation-loop lemmas -/

theorem setOutBody_some_ok (orig : Graph) (op : String) (src : Option Nat)
    (i : Nat) (old m : NodeId) (st : PassSt) :
    ∃ st2, setOutBody orig op src i old (some m) st = .ok () st2 ∧
      st2.env = (old, some m) :: st.env := by
  unfold setOutBody
  simp only [bindP_def, getStP_def]
  by_cases ht : (getNode st.g m).nType = none
  · rw [if_pos ht]
    exact ⟨_, rfl, rfl⟩
  · rw [if_neg ht]
    exact ⟨_, rfl, rfl⟩

theorem setOutBody_none_elides (orig : Graph) (op : String) (src : Option Nat)
    (i : Nat) (old : NodeId) (st : PassSt)
    (hu : (getNode orig old).uses.isEmpty = true) :
    setOutBody orig op src i old none st =
      .ok () { st with env := (old, none) :: st.env } := by
  unfold setOutBody
  simp only [bindP_def, envSet, modifyP_def, hu, if_true]
  rfl

theorem setOutBody_none_dropped (orig : Graph) (op : String) (src : Option Nat)
    (i : Nat) (old : NodeId) (st : PassSt)
    (hu : (getNode orig old).uses.isEmpty = false) :
    setOutBody orig op src i old none st =
      .err (.droppedUsedOutput op i) { st with env := (old, none) :: st.env } := by
  unfold setOutBody
  simp only [bindP_def, envSet, modifyP_def, hu, Bool.false_eq_true, if_false]
  rfl

/-- If position `j` is the first position whose candidate entry is null while
the original output still has uses, the reconciliation loop started at index
`i0` fails with the dropped-used-output error at index `i0 + j`. -/
theorem setOutLoop_first_dropped (orig : Graph) (op : String) (src : Option Nat) :
    ∀ (outs : List (Option NodeId)) (olds : List NodeId) (i0 j : Nat)
      (oldj : NodeId) (st : PassSt),
      outs.get? j = some none →
      olds.get? j = some oldj →
      (getNode orig oldj).uses.isEmpty = false →
      (∀ i oi, i < j → outs.get? i = some none → olds.get? i = some oi →
        (getNode orig oi).uses.isEmpty = true) →
      ∃ st2, setOutLoop orig op src i0 olds outs st =
        .err (.droppedUsedOutput op (i0 + j)) st2 := by
  intro outs
  induction outs with
  | nil =>
    intro olds i0 j oldj st hj hold huse hmin
    simp at hj
  | cons e es ih =>
    intro olds i0 j oldj st hj hold huse hmin
    cases olds with
    | nil => simp at hold
    | cons o os =>
      cases j with
      | zero =>
        simp only [List.get?_cons_zero, Option.some.injEq] at hj hold
        subst hj
        subst hold
        refine ⟨{ st with env := (o, none) :: st.env }, ?_⟩
        show (setOutBody orig op src i0 o none >>= fun _ =>
          setOutLoop orig op src (i0 + 1) os es) st = _
        rw [bindP_def, setOutBody_none_dropped orig op src i0 o st huse]
        simp
      | succ jj =>
        simp only [List.get?_cons_succ] at hj hold
        have hmin2 : ∀ i oi, i < jj → es.get? i = some none →
            os.get? i = some oi → (getNode orig oi).uses.isEmpty = true := by
          intro i oi hlt h1 h2
          exact hmin (i + 1) oi (by omega)
            (by rw [List.get?_cons_succ]; exact h1)
            (by rw [List.get?_cons_succ]; exact h2)
        have hadd : i0 + (jj + 1) = (i0 + 1) + jj := by omega
        rw [hadd]
        cases e with
        | none =>
          have ho : (getNode orig o).uses.isEmpty = true :=
            hmin 0 o (by omega) (by rw [List.get?_cons_zero]) (by rw [List.get?_cons_zero])
          obtain ⟨st2, h2⟩ := ih os (i0 + 1) jj oldj
            { st with env := (o, none) :: st.env } hj hold huse hmin2
          refine ⟨st2, ?_⟩
          show (setOutBody orig op src i0 o none >>= fun _ =>
            setOutLoop orig op src (i0 + 1) os es) st = _
          rw [bindP_def, setOutBody_none_elides orig op src i0 o st ho]
          exact h2
        | some m =>
          obtain ⟨st1, h1, _⟩ := setOutBody_some_ok orig op src i0 o m st
          obtain ⟨st2, h2⟩ := ih os (i0 + 1) jj oldj st1 hj hold huse hmin2
          refine ⟨st2, ?_⟩
          show (setOutBody orig op src i0 o (some m) >>= fun _ =>
            setOutLoop orig op src (i0 + 1) os es) st = _
          rw [bindP_def, h1]
          exact h2

/-! ### Claim theorems: dropped used outputs (C3) -/

/-- C3: a null entry at the first offending position `j` of a lowering result
whose original output still has recorded uses makes the pass fail with the
dropped-used-output error naming the operator and the output index; a null
entry whose original output has no recorded uses is recorded as the elided
marker in the node mapping and reconciliation continues normally. -/
theorem setOutputs_dropped_used_output (orig : Graph) (op : String)
    (nid : NodeId) (outs : List (Option NodeId)) (j : Nat) (oldj : NodeId)
    (st : PassSt) (src : Option Nat) (i2 : Nat) (old2 : NodeId) :
    (outs.length = nonHandleCount orig (getNode orig nid) →
     outs.get? j = some none →
     ((getNode orig nid).outputs.take
        (nonHandleCount orig (getNode orig nid))).get? j = some oldj →
     (getNode orig oldj).uses.isEmpty = false →
     (∀ i oi, i < j → outs.get? i = some none →
       ((getNode orig nid).outputs.take
          (nonHandleCount orig (getNode orig nid))).get? i = some oi →
       (getNode orig oi).uses.isEmpty = true) →
     ∃ st2, setOutputs orig op nid outs st =
       .err (.droppedUsedOutput op j) st2) ∧
    ((getNode orig old2).uses.isEmpty = true →
     setOutBody orig op src i2 old2 none st =
       .ok () { st with env := (old2, none) :: st.env }) := by
  constructor
  · intro harity hj hold huse hmin
    unfold setOutputs
    rw [if_neg (not_not_intro harity)]
    obtain ⟨st2, h2⟩ := setOutLoop_first_dropped orig op
      (getNode orig nid).srcLoc outs
      ((getNode orig nid).outputs.take (nonHandleCount orig (getNode orig nid)))
      0 j oldj st hj hold huse hmin
    rw [Nat.zero_add] at h2
    refine ⟨st2, ?_⟩
    rw [bindP_def, h2]
  · intro hu
    exact setOutBody_none_elides orig op src i2 old2 st hu

/-! ### Input-cloning and buffer-translation lemmas -/

theorem createClone_nil_inputs (src : Node) (st : PassSt) (h : src.inputs = []) :
    createClone src st = .ok st.g.nextId
      { st with g := { st.g with
          store := (st.g.nextId,
            { kind := src.kind, inputs := [], nType := src.nType,
              stage := st.g.curStage, srcLoc := src.srcLoc, multi := src.multi,
              outputs := [], uses := [] }) :: st.g.store,
          nextId := st.g.nextId + 1 } } := by
  unfold createClone
  rw [h]
  rfl

theorem cloneInputs_cons_ok (orig : Graph) (i : NodeId) (is : List NodeId)
    (st : PassSt) (h : (getNode orig i).inputs = []) :
    cloneInputs orig (i :: is) st =
      cloneInputs orig is (cloneInputStep orig i st) := by
  show (createClone (getNode orig i) >>= fun c =>
    updNode c (fun n => { n with stage := (getNode orig i).stage }) >>= fun _ =>
    addInputM c >>= fun _ =>
    envSet i (some c) >>= fun _ =>
    cloneInputs orig is) st = _
  rw [bindP_def, createClone_nil_inputs (getNode orig i) st h]
  rfl

theorem cloneInputs_ok (orig : Graph) :
    ∀ (ins : List NodeId) (st : PassSt),
      (∀ i, i ∈ ins → (getNode orig i).inputs = []) →
      ∃ st2, cloneInputs orig ins st = .ok () st2 ∧
        (∀ n, n ∉ ins → alook n st2.env = alook n st.env) ∧
        (∀ i, i ∈ ins → ∃ c, alook i st2.env = some (some c)) := by
  intro ins
  induction ins with
  | nil =>
    intro st h
    exact ⟨st, rfl, fun n _ => rfl, fun i hi => absurd hi (List.not_mem_nil i)⟩
  | cons i is ih =>
    intro st h
    have hstep := cloneInputs_cons_ok orig i is st (h i (List.mem_cons_self i is))
    have henv : (cloneInputStep orig i st).env = (i, some st.g.nextId) :: st.env := rfl
    obtain ⟨st2, hrun, hpres, hmem⟩ :=
      ih (cloneInputStep orig i st) (fun j hj => h j (List.mem_cons_of_mem i hj))
    refine ⟨st2, by rw [hstep]; exact hrun, ?_, ?_⟩
    · intro n hn
      have hn1 : n ∉ is := fun hmem2 => hn (List.mem_cons_of_mem i hmem2)
      have hni : ¬n = i := fun he => hn (he ▸ List.mem_cons_self i is)
      rw [hpres n hn1, henv]
      simp [alook_cons, hni]
    · intro j hj
      by_cases hji : j ∈ is
      · exact hmem j hji
      · have hjieq : j = i := by
          rcases List.mem_cons.mp hj with h1 | h2
          · exact h1
          · exact absurd h2 hji
        subst hjieq
        refine ⟨st.g.nextId, ?_⟩
        rw [hpres j hji, henv]
        simp [alook_cons]

theorem translateBuffers_dangling (inputIds : List NodeId) :
    ∀ (bm : List (Nat × NodeId)) (st : PassSt),
      (∀ i, i ∈ inputIds → ∃ c, alook i st.env = some (some c)) →
      (∀ n, n ∉ inputIds → alook n st.env = none) →
      (∃ p, p ∈ bm ∧ p.2 ∉ inputIds) →
      ∃ st2, translateBuffers bm st = .err .danglingReference st2 := by
  intro bm
  induction bm with
  | nil =>
    intro st h1 h2 hbad
    obtain ⟨p, hp, _⟩ := hbad
    exact absurd hp (List.not_mem_nil p)
  | cons kv rest ih =>
    intro st h1 h2 hbad
    obtain ⟨k, v⟩ := kv
    by_cases hv : v ∈ inputIds
    · obtain ⟨c, hc⟩ := h1 v hv
      have hbad2 : ∃ p, p ∈ rest ∧ p.2 ∉ inputIds := by
        obtain ⟨p, hp, hnotin⟩ := hbad
        rcases List.mem_cons.mp hp with h1p | h2p
        · exfalso
          rw [h1p] at hnotin
          exact hnotin hv
        · exact ⟨p, h2p, hnotin⟩
      obtain ⟨st2, h2r⟩ := ih { st with bufMap := (k, c) :: st.bufMap } h1 h2 hbad2
      refine ⟨st2, ?_⟩
      show (envFn v >>= fun m => bufSet k m >>= fun _ =>
        translateBuffers rest) st = _
      rw [bindP_def]
      unfold envFn
      rw [hc]
      exact h2r
    · have hv2 : alook v st.env = none := h2 v hv
      refine ⟨st, ?_⟩
      show (envFn v >>= fun m => bufSet k m >>= fun _ =>
        translateBuffers rest) st = _
      rw [bindP_def]
      unfold envFn
      rw [hv2]

/-! ### Claim theorems: buffer map translated before dispatch (C10) -/

/-- C10: the buffer correspondence map is translated through the node mapping
right after the graph inputs are cloned and before any node is dispatched, so
an entry whose original node is not a graph input hits an absent mapping and
the pass fails with the dangling-reference fault — for every oracle and
whatever the graph's nodes are, since no lowering has run yet. -/
theorem buffer_map_translated_before_dispatch (o : Oracle) (s : TracingState)
    (hexp : s.isExpired = false)
    (hins : ∀ i, i ∈ s.graph.inputs → (getNode s.graph i).inputs = [])
    (hbad : ∃ p, p ∈ s.bufferMap ∧ p.2 ∉ s.graph.inputs) :
    ToONNX o s = (s, some .danglingReference) := by
  obtain ⟨st2, hclone, hpres, hmem⟩ := cloneInputs_ok s.graph s.graph.inputs initSt hins
  have hnone : ∀ n, n ∉ s.graph.inputs → alook n st2.env = none := by
    intro n hn
    rw [hpres n hn]
    rfl
  obtain ⟨st3, htrans⟩ :=
    translateBuffers_dangling s.graph.inputs s.bufferMap st2 hmem hnone hbad
  unfold ToONNX
  rw [hexp]
  simp only [Bool.false_eq_true, if_false]
  unfold passBody
  simp only [bindP_def, hclone, htrans]

/-! ### Structural-clone lemmas -/

theorem mapEnv_ok : ∀ (ins : List NodeId) (st : PassSt),
    (∀ i, i ∈ ins → ∃ m, alook i st.env = some (some m)) →
    ∃ ms, mapEnv ins st = .ok ms st := by
  intro ins
  induction ins with
  | nil =>
    intro st h
    exact ⟨[], rfl⟩
  | cons i is ih =>
    intro st h
    obtain ⟨m, hm⟩ := h i (List.mem_cons_self i is)
    obtain ⟨ms, hms⟩ := ih st (fun j hj => h j (List.mem_cons_of_mem i hj))
    have he : envFn i st = .ok m st := by
      unfold envFn
      rw [hm]
    refine ⟨m :: ms, ?_⟩
    show (envFn i >>= fun m2 => mapEnv is >>= fun ms2 => pure (m2 :: ms2)) st = _
    simp only [bindP_def, he, hms, pureP_def]

theorem createClone_ok (src : Node) (st : PassSt) (ms : List NodeId)
    (hms : mapEnv src.inputs st = .ok ms st) :
    createClone src st = .ok st.g.nextId
      { st with g := { st.g with
          store := (st.g.nextId, cloneOf src ms st.g.curStage) :: st.g.store,
          nextId := st.g.nextId + 1 } } := by
  unfold createClone
  simp only [bindP_def, hms, getStP_def]
  rfl

theorem hasUsedHandle_multi (g : Graph) (n : Node)
    (h : hasUsedHandle g n = true) : n.multi = true := by
  unfold hasUsedHandle hasHandleOutput at h
  rw [Bool.and_eq_true, Bool.and_eq_true] at h
  exact h.1.1

theorem mapEnv_single (nid c : NodeId) (st : PassSt)
    (h : alook nid st.env = some (some c)) :
    mapEnv [nid] st = .ok [c] st := by
  have he : envFn nid st = .ok c st := by
    unfold envFn
    rw [h]
  show (envFn nid >>= fun m => mapEnv [] >>= fun ms => pure (m :: ms)) st = _
  simp only [bindP_def, he]
  rfl

theorem cloneUsers_cons_ok (orig : Graph) (nid : NodeId) (u : NUse)
    (us : List NUse) (c : NodeId) (st : PassSt)
    (h1 : (getNode orig u.user).inputs = [nid])
    (h2 : alook nid st.env = some (some c)) :
    cloneUsers orig (u :: us) st = cloneUsers orig us (cloneUserStep orig u c st) := by
  have hcc := createClone_ok (getNode orig u.user) st [c]
    (by rw [h1]; exact mapEnv_single nid c st h2)
  show (createClone (getNode orig u.user) >>= fun c2 =>
    appendNodeM c2 >>= fun _ => envSet u.user (some c2) >>= fun _ =>
    cloneUsers orig us) st = _
  simp only [bindP_def, hcc]
  rfl

theorem cloneUsers_ok (orig : Graph) (nid : NodeId) (c : NodeId) :
    ∀ (uses : List NUse) (st : PassSt),
      (∀ u, u ∈ uses → (getNode orig u.user).inputs = [nid]) →
      (∀ u, u ∈ uses → ¬u.user = nid) →
      (uses.map NUse.user).Nodup →
      alook nid st.env = some (some c) →
      ∃ st2, cloneUsers orig uses st = .ok () st2 ∧
        st.g.nextId ≤ st2.g.nextId ∧
        st2.g.curStage = st.g.curStage ∧
        (∀ j, j < st.g.nextId → alook j st2.g.store = alook j st.g.store) ∧
        (∀ x, x ∈ st.g.order → x ∈ st2.g.order) ∧
        (∀ n, (∀ u, u ∈ uses → ¬n = u.user) → alook n st2.env = alook n st.env) ∧
        (∀ u, u ∈ uses → ∃ cu, alook u.user st2.env = some (some cu) ∧
          alook cu st2.g.store = some (cloneOf (getNode orig u.user) [c] st.g.curStage) ∧
          cu ∈ st2.g.order) := by
  intro uses
  induction uses with
  | nil =>
    intro st hin hne hnd hc
    exact ⟨st, rfl, Nat.le_refl _, rfl, fun j _ => rfl, fun x hx => hx,
      fun n _ => rfl, fun u hu => absurd hu (List.not_mem_nil u)⟩
  | cons u us ih =>
    intro st hin hne hnd hc
    have hstep := cloneUsers_cons_ok orig nid u us c st
      (hin u (List.mem_cons_self u us)) hc
    have hnd2 := List.nodup_cons.mp
      (show (u.user :: us.map NUse.user).Nodup from hnd)
    have hc1 : alook nid (cloneUserStep orig u c st).env = some (some c) := by
      show alook nid ((u.user, some st.g.nextId) :: st.env) = _
      rw [alook_cons_ne nid u.user _ _
        (fun he => hne u (List.mem_cons_self u us) he.symm)]
      exact hc
    obtain ⟨st2, hrun, hnext, hcur, hstore, horder, henv, husers⟩ :=
      ih (cloneUserStep orig u c st)
        (fun v hv => hin v (List.mem_cons_of_mem u hv))
        (fun v hv => hne v (List.mem_cons_of_mem u hv))
        hnd2.2 hc1
    have hnext1 : (cloneUserStep orig u c st).g.nextId = st.g.nextId + 1 := rfl
    have hcur1 : (cloneUserStep orig u c st).g.curStage = st.g.curStage := rfl
    refine ⟨st2, by rw [hstep]; exact hrun, ?_, ?_, ?_, ?_, ?_, ?_⟩
    · rw [hnext1] at hnext
      exact Nat.le_of_succ_le hnext
    · rw [hcur, hcur1]
    · intro j hj
      have hj1 : j < (cloneUserStep orig u c st).g.nextId := by
        rw [hnext1]
        exact Nat.lt_succ_of_lt hj
      rw [hstore j hj1]
      show alook j ((st.g.nextId, cloneOf (getNode orig u.user) [c] st.g.curStage)
        :: st.g.store) = alook j st.g.store
      exact alook_cons_ne j st.g.nextId _ _ (Nat.ne_of_lt hj)
    · intro x hx
      refine horder x ?_
      show x ∈ st.g.order ++ [st.g.nextId]
      exact List.mem_append_left _ hx
    · intro n hn
      rw [henv n (fun v hv => hn v (List.mem_cons_of_mem u hv))]
      show alook n ((u.user, some st.g.nextId) :: st.env) = alook n st.env
      exact alook_cons_ne n u.user _ _ (hn u (List.mem_cons_self u us))
    · intro v hv
      rcases List.mem_cons.mp hv with hvu | hvtail
      · rw [hvu]
        refine ⟨st.g.nextId, ?_, ?_, ?_⟩
        · have hnotin : ∀ w, w ∈ us → ¬u.user = w.user := by
            intro w hw he
            exact hnd2.1 (by
              rw [he]
              exact List.mem_map_of_mem NUse.user hw)
          rw [henv u.user hnotin]
          show alook u.user ((u.user, some st.g.nextId) :: st.env) = _
          exact alook_cons_self u.user _ st.env
        · have hlt : st.g.nextId < (cloneUserStep orig u c st).g.nextId := by
            rw [hnext1]
            exact Nat.lt_succ_self _
          rw [hstore st.g.nextId hlt]
          show alook st.g.nextId
            ((st.g.nextId, cloneOf (getNode orig u.user) [c] st.g.curStage) ::
              st.g.store) = _
          exact alook_cons_self _ _ _
        · refine horder st.g.nextId ?_
          show st.g.nextId ∈ st.g.order ++ [st.g.nextId]
          exact List.mem_append_right _ (List.mem_singleton.mpr rfl)
      · obtain ⟨cu, hcu1, hcu2, hcu3⟩ := husers v hvtail
        refine ⟨cu, hcu1, ?_, hcu3⟩
        rw [hcu2, hcur1]

theorem cloneNode_multi_eq (orig : Graph) (nid : NodeId) (st : PassSt)
    (ms : List NodeId) (hmulti : (getNode orig nid).multi = true)
    (hms : mapEnv (getNode orig nid).inputs st = .ok ms st) :
    cloneNode orig nid st =
      cloneUsers orig (getNode orig nid).uses (cloneNodeStep orig nid ms st) := by
  show (createClone (getNode orig nid) >>= fun c =>
    envSet nid (some c) >>= fun _ => appendNodeM c >>= fun _ =>
    (if (getNode orig nid).multi then cloneUsers orig (getNode orig nid).uses
     else pure ())) st = _
  simp only [bindP_def, createClone_ok (getNode orig nid) st ms hms, hmulti,
    if_true]
  rfl

theorem cloneNode_multi_ok (orig : Graph) (nid : NodeId) (st : PassSt)
    (hmulti : (getNode orig nid).multi = true)
    (hins : ∀ i, i ∈ (getNode orig nid).inputs → ∃ m, alook i st.env = some (some m))
    (h1 : ∀ u, u ∈ (getNode orig nid).uses → (getNode orig u.user).inputs = [nid])
    (hne : ∀ u, u ∈ (getNode orig nid).uses → ¬u.user = nid)
    (hnodup : ((getNode orig nid).uses.map NUse.user).Nodup) :
    ∃ st2 ms, cloneNode orig nid st = .ok () st2 ∧
      mapEnv (getNode orig nid).inputs st = .ok ms st ∧
      alook nid st2.env = some (some st.g.nextId) ∧
      alook st.g.nextId st2.g.store =
        some (cloneOf (getNode orig nid) ms st.g.curStage) ∧
      st.g.nextId ∈ st2.g.order ∧
      (∀ u, u ∈ (getNode orig nid).uses → ∃ cu,
        alook u.user st2.env = some (some cu) ∧
        alook cu st2.g.store =
          some (cloneOf (getNode orig u.user) [st.g.nextId] st.g.curStage) ∧
        cu ∈ st2.g.order) := by
  obtain ⟨ms, hms⟩ := mapEnv_ok (getNode orig nid).inputs st hins
  have heq := cloneNode_multi_eq orig nid st ms hmulti hms
  have hcB : alook nid (cloneNodeStep orig nid ms st).env =
      some (some st.g.nextId) := by
    show alook nid ((nid, some st.g.nextId) :: st.env) = _
    exact alook_cons_self nid _ st.env
  obtain ⟨st2, hrun, hnext, hcur, hstore, horder, henv, husers⟩ :=
    cloneUsers_ok orig nid st.g.nextId (getNode orig nid).uses
      (cloneNodeStep orig nid ms st) h1 hne hnodup hcB
  have hnextB : (cloneNodeStep orig nid ms st).g.nextId = st.g.nextId + 1 := rfl
  refine ⟨st2, ms, by rw [heq]; exact hrun, hms, ?_, ?_, ?_, ?_⟩
  · rw [henv nid (fun u hu he => hne u hu he.symm)]
    exact hcB
  · have hlt : st.g.nextId < (cloneNodeStep orig nid ms st).g.nextId := by
      rw [hnextB]
      exact Nat.lt_succ_self _
    rw [hstore st.g.nextId hlt]
    show alook st.g.nextId
      ((st.g.nextId, cloneOf (getNode orig nid) ms st.g.curStage) ::
        st.g.store) = _
    exact alook_cons_self _ _ _
  · refine horder st.g.nextId ?_
    show st.g.nextId ∈ st.g.order ++ [st.g.nextId]
    exact List.mem_append_right _ (List.mem_singleton.mpr rfl)
  · intro u hu
    obtain ⟨cu, hcu1, hcu2, hcu3⟩ := husers u hu
    exact ⟨cu, hcu1, hcu2, hcu3⟩

/-! ### Claim theorems: used handle outputs force structural cloning (C5) -/

/-- C5: a multi-output node whose handle output has recorded uses is processed
exactly as `cloneNode` — for every oracle, so no lowering routine is ever
invoked for it — and the structural clone installs a copy of the node (same
kind, type and attributes, inputs resolved through the node mapping) in the
new graph and, for every recorded consumer of the node (its output-selecting
users), a structural clone of that consumer wired to the new node and recorded
in the node mapping. -/
theorem used_handle_never_lowered (o : Oracle) (orig : Graph) (nid : NodeId)
    (st : PassSt)
    (hused : hasUsedHandle orig (getNode orig nid) = true)
    (hins : ∀ i, i ∈ (getNode orig nid).inputs → ∃ m, alook i st.env = some (some m))
    (h1 : ∀ u, u ∈ (getNode orig nid).uses → (getNode orig u.user).inputs = [nid])
    (hne : ∀ u, u ∈ (getNode orig nid).uses → ¬u.user = nid)
    (hnodup : ((getNode orig nid).uses.map NUse.user).Nodup) :
    processNode o orig nid st = cloneNode orig nid st ∧
    (∃ st2 ms, cloneNode orig nid st = .ok () st2 ∧
      mapEnv (getNode orig nid).inputs st = .ok ms st ∧
      alook nid st2.env = some (some st.g.nextId) ∧
      alook st.g.nextId st2.g.store =
        some (cloneOf (getNode orig nid) ms st.g.curStage) ∧
      st.g.nextId ∈ st2.g.order ∧
      (∀ u, u ∈ (getNode orig nid).uses → ∃ cu,
        alook u.user st2.env = some (some cu) ∧
        alook cu st2.g.store =
          some (cloneOf (getNode orig u.user) [st.g.nextId] st.g.curStage) ∧
        cu ∈ st2.g.order)) := by
  have hmulti := hasUsedHandle_multi orig (getNode orig nid) hused
  constructor
  · unfold processNode
    rw [hmulti, hused]
    simp
  · exact cloneNode_multi_ok orig nid st hmulti hins h1 hne hnodup

/-! ### Witnesses: the claim theorems applied at concrete inputs -/

theorem ToONNX_swap_is_last_witness :
    ToONNX oracleNone sBad = (sBad, some .danglingReference) ∧ sBad = sBad := by
  refine ⟨rfl, ?_⟩
  exact (ToONNX_swap_is_last oracleNone sBad).1 sBad .danglingReference rfl

theorem setOutputs_arity_mismatch_witness :
    setOutputs gW "op" 7 [] stW = .err (.arityMismatch "op" 2 0) stW := by
  have h := setOutputs_arity_mismatch gW "op" 7 [] stW (by decide)
  exact h

theorem setOutputs_dropped_used_output_witness :
    (∃ st2, setOutputs gW "op" 7 [none, none] stW =
      .err (.droppedUsedOutput "op" 0) st2) ∧
    setOutBody gW "op" (some 4) 1 6 none stW =
      .ok () { stW with env := (6, none) :: stW.env } := by
  have h := setOutputs_dropped_used_output gW "op" 7 [none, none] 0 5 stW (some 4) 1 6
  exact ⟨h.1 (by decide) (by decide) (by decide) (by decide)
      (fun i oi hlt _ _ => absurd hlt (Nat.not_lt_zero i)),
    h.2 (by decide)⟩

theorem setOutputs_type_fill_never_overwrite_witness :
    ∃ st2, setOutBody gW "op" none 0 5 (some 10) stT = .ok () st2 ∧
      (getNode st2.g 10).nType =
        (if ndT.nType = none then (getNode gW 5).nType else ndT.nType) :=
  setOutputs_type_fill_never_overwrite gW "op" none 0 5 10 stT ndT rfl

theorem used_handle_never_lowered_witness :
    processNode oracleNone gW 1 stW = cloneNode gW 1 stW ∧
    (∃ st2 ms, cloneNode gW 1 stW = .ok () st2 ∧
      mapEnv (getNode gW 1).inputs stW = .ok ms stW ∧
      alook 1 st2.env = some (some stW.g.nextId) ∧
      alook stW.g.nextId st2.g.store =
        some (cloneOf (getNode gW 1) ms stW.g.curStage) ∧
      stW.g.nextId ∈ st2.g.order ∧
      (∀ u, u ∈ (getNode gW 1).uses → ∃ cu,
        alook u.user st2.env = some (some cu) ∧
        alook cu st2.g.store =
          some (cloneOf (getNode gW u.user) [stW.g.nextId] stW.g.curStage) ∧
        cu ∈ st2.g.order)) := by
  refine used_handle_never_lowered oracleNone gW 1 stW (by decide) ?_ (by decide)
    (by decide) (by decide)
  intro i hi
  have h0 : (getNode gW 1).inputs = [0] := rfl
  rw [h0] at hi
  rw [List.mem_singleton.mp hi]
  exact ⟨0, rfl⟩

theorem envFn_resolve_spec_witness :
    envFn 1 stEnv = .ok 5 stEnv ∧
    envFn 2 stEnv = .err .usedElidedOutput stEnv ∧
    envFn 3 stEnv = .err .danglingReference stEnv :=
  ⟨(envFn_resolve_spec stEnv 1).2.2 5 rfl,
   (envFn_resolve_spec stEnv 2).2.1 rfl,
   (envFn_resolve_spec stEnv 3).1 rfl⟩

theorem undefined_always_cloned_witness :
    processNode oracleNone gW 8 stW = cloneOnly gW 8 stW :=
  undefined_always_cloned oracleNone gW 8 stW (by decide)

theorem ToONNX_expired_fails_witness :
    ToONNX oracleNone sExp = (sExp, some .staleTraceState) :=
  ToONNX_expired_fails oracleNone sExp rfl

theorem elided_output_installed_null_witness :
    registerOutputs [some 2] stEnv =
      .ok () { stEnv with g := { stEnv.g with outputs := stEnv.g.outputs ++ [none] } } ∧
    envFn 2 stEnv = .err .usedElidedOutput stEnv :=
  elided_output_installed_null stEnv 2 rfl

theorem buffer_map_translated_before_dispatch_witness :
    ToONNX oracleNone sBad2 = (sBad2, some .danglingReference) :=
  buffer_map_translated_before_dispatch oracleNone sBad2 rfl (by decide) (by decide)

end OnnxPass
